import Mathlib

/-!
Verification of the `serverless-kubeless` deploy plugin
(`src/deploy/kubelessDeploy.js`).

The development shallowly embeds the function-population pipeline of
`KubelessDeploy`: artifact resolution (`getPkg`), the artifact size check
(`checkSize`), archive reading through the memoized zip loader
(`getFileContent` / `loadZip`), event normalization, and the
promise-barrier orchestration of `deployFunction`.

JavaScript values are modelled by `JVal` (only the shapes the plugin
manipulates: strings, plain objects, arrays and `undefined`); JS objects
are association lists with unique keys, `Object.assign` / `_.assign` is
`jsAssign`.  The asynchronous per-function branches of `deployFunction`
are modelled as a synchronous phase (`runSync`, the `_.each` iteration)
followed by the processing of the launched branches in an arbitrary
completion order (`runBranches` over any permutation of the launched
list).  Between a branch's strategy settlement and its dependency-read
settlement the only globally visible effect is a possible `reject()`,
which commutes with the appends performed by other branches, so a branch
is processed as one atomic step whose order in the schedule is its
strategy-settlement time.
-/

namespace Kubeless

/-- JavaScript values, restricted to the shapes `kubelessDeploy.js`
manipulates.  Numbers, booleans and `null` never flow through the code
paths the claims are about. -/
inductive JVal where
  | undef
  | str (s : String)
  | obj (fields : List (String × JVal))
  | arr (elems : List JVal)

/-- A JavaScript plain object: an association list of own enumerable
properties in insertion order.  JS objects never hold duplicate keys. -/
abbrev Obj := List (String × JVal)

/-- JS truthiness for the values of `JVal`: `undefined` and the empty
string are falsy, every object, array and non-empty string is truthy. -/
def truthy : JVal → Bool
  | JVal.undef => false
  | JVal.str s => s != ""
  | JVal.obj _ => true
  | JVal.arr _ => true

/-- Property read `o[k]` on an object: first matching key, else
`undefined`. -/
def objGet : Obj → String → JVal
  | [], _ => JVal.undef
  | p :: rest, k => if p.1 = k then p.2 else objGet rest k

/-- Property write `o[k] = v`: replace the value at an existing key in
place, otherwise append the property.  This is what each step of
`_.assign` does. -/
def objSet : Obj → String → JVal → Obj
  | [], k, v => [(k, v)]
  | p :: rest, k, v => if p.1 = k then (k, v) :: rest else p :: objSet rest k v

/-- `_.assign(target, source)`: copy every own property of `source` onto
`target`, left to right. -/
def jsAssign (target src : Obj) : Obj :=
  src.foldl (fun o p => objSet o p.1 p.2) target

/-- Property read on an arbitrary value; non-objects have no modelled
properties (reading a property of a string or array yields values no
claim exercises). -/
def jvGet : JVal → String → JVal
  | JVal.obj fs, k => objGet fs k
  | _, _ => JVal.undef

/-- JS `a || b` for possibly-absent configuration strings: an absent
value and the empty string are falsy. -/
def jsOr (a b : Option String) : Option String :=
  match a with
  | some s => if s = "" then b else some s
  | none => b

/-- Truthiness of a possibly-absent configuration string. -/
def optTruthy : Option String → Bool
  | some s => s != ""
  | none => false

/-- JS `a || b` on `JVal`. -/
def jsOrVal (a b : JVal) : JVal :=
  if truthy a then a else b

/-- `_.keys` of a value; index keys of strings and arrays are not
modelled (no claim reads them). -/
def keysOf : JVal → List String
  | JVal.obj fs => fs.map Prod.fst
  | _ => []

/-- The own enumerable properties `_.assign` copies from a source value:
the fields of an object, nothing from `undefined`.  (Index properties of
strings are not modelled; the claims only spread object payloads.) -/
def fieldsOf : JVal → Obj
  | JVal.obj fs => fs
  | _ => []

/-- One step of the event normalization inside `deployFunction`
(lines 131-139): the event's first key is its `type`; `trigger` and
`schedule` payloads are re-nested under their own key, any other
payload's fields are spread flat by `_.assign({ type }, event[type])`. -/
def normalizeEvent (event : JVal) : JVal :=
  match (keysOf event).head? with
  | none => JVal.obj [("type", JVal.undef)]
  | some t =>
    if t = "trigger" then
      JVal.obj (jsAssign [("type", JVal.str t)] [("trigger", jvGet event t)])
    else if t = "schedule" then
      JVal.obj (jsAssign [("type", JVal.str t)] [("schedule", jvGet event t)])
    else
      JVal.obj (jsAssign [("type", JVal.str t)] (fieldsOf (jvGet event t)))

/-- `_.map(description.events, ...)`: mapping over an array maps its
elements; mapping over `undefined` yields `[]`. -/
def normalizeEvents : JVal → List JVal
  | JVal.arr evs => evs.map normalizeEvent
  | _ => []

/-- The per-event normal form exactly as the claim states it: a
`trigger` event yields `{type, trigger: v}`, a `schedule` event yields
`{type, schedule: v}`, any other kind yields `{type}` with the payload
object's fields spread flat at the top level.  Stated from the claim's
words, to be compared against `normalizeEvent`. -/
def claimNormalizeEvent (k : String) (v : JVal) : JVal :=
  if k = "trigger" then JVal.obj [("type", JVal.str "trigger"), ("trigger", v)]
  else if k = "schedule" then JVal.obj [("type", JVal.str "schedule"), ("schedule", v)]
  else JVal.obj (("type", JVal.str k) :: fieldsOf v)

/-- The failures the deploy pipeline can raise synchronously:
the individual-packaging layout error thrown by `getPkg`, a failed
`lstatSync`/`statSync` (absent path, or a stat on `undefined`), and the
`TypeError` of reading `.artifact` from an undefined `description.package`. -/
inductive DeployError where
  | invalidPackageLayout (msg : String)
  | statError (path : Option String)
  | typeError
deriving DecidableEq

/-- The exact message `getPkg` logs and throws (typos preserved from the
source). -/
def pkgDirMsg : String :=
  "Expecting the Paramater to be a directory for individualy packaged functions"

/-- `description.package.artifact`: throws a `TypeError` when
`description.package` is `undefined`; property access on any other
non-object yields `undefined` without throwing. -/
def declPackageArtifact (description : Obj) : Except DeployError (Option String) :=
  match objGet description "package" with
  | JVal.undef => Except.error DeployError.typeError
  | JVal.obj fs =>
    match objGet fs "artifact" with
    | JVal.str s => Except.ok (some s)
    | _ => Except.ok none
  | _ => Except.ok none

/-- The deploy-time environment: the declared function map, the options
bag, the service/provider configuration, the filesystem as seen through
`lstatSync`/`statSync` (`none` models a throwing stat), the archive
contents, the runtime-to-dependency-file mapping and the per-function
outcome of the strategy-specific deploy call. -/
structure DeployEnv where
  functions : List (String × Obj)
  optionsPackage : Option String
  servicePackagePath : Option String
  servicePackageArtifact : Option String
  serviceArtifact : Option String
  individually : Bool
  isDirectory : String → Option Bool
  fileSize : String → Option Nat
  providerImage : JVal
  providerRuntime : JVal
  depfile : JVal → String
  archiveEntries : String → String → Option String
  strategyResult : String → Except String Obj

/-- `getPkg` (lines 81-101): the `||` fallback chain picks the artifact
path; when an explicit `--package` option is combined with
`package.individually`, the supplied path must be a directory and the
per-function artifact is the string concatenation
`pkg + funcName + ".zip"`; a non-directory path logs and throws. -/
def getPkg (env : DeployEnv) (description : Obj) (funcName : String) :
    Except DeployError (Option String) :=
  let head := jsOr env.optionsPackage (jsOr env.servicePackagePath env.servicePackageArtifact)
  let pkgE : Except DeployError (Option String) :=
    if optTruthy head then Except.ok head
    else
      match declPackageArtifact description with
      | Except.error e => Except.error e
      | Except.ok v => Except.ok (jsOr v env.serviceArtifact)
  match pkgE with
  | Except.error e => Except.error e
  | Except.ok pkg =>
    if optTruthy env.optionsPackage && env.individually then
      match pkg with
      | none => Except.error (DeployError.statError none)
      | some p =>
        match env.isDirectory p with
        | none => Except.error (DeployError.statError (some p))
        | some true => Except.ok (some (p ++ funcName ++ ".zip"))
        | some false => Except.error (DeployError.invalidPackageLayout pkgDirMsg)
    else Except.ok pkg

/-- The etcd record-size limit `checkSize` warns about. -/
def oneMB : Nat := 1024 * 1024

/-- `Math.round(stat.size / oneMB)` for a natural size: half-up
rounding. -/
def roundedMB (size : Nat) : Nat := (2 * size + oneMB) / (2 * oneMB)

/-- The warning `checkSize` logs, for a given rounded megabyte count. -/
def warnMsg (mb : Nat) : String :=
  "WARNING! Function zip file is " ++ toString mb ++
    "MB. The maximum size allowed is 1MB: please use package.exclude directives to include " ++
    "only the required files"

/-- The warning emitted for a given artifact size: only when the size
strictly exceeds one MiB. -/
def sizeWarning (size : Nat) : Option String :=
  if oneMB < size then some (warnMsg (roundedMB size)) else none

/-- `checkSize` (lines 67-79): `statSync` the artifact (throwing when
the path is `undefined` or absent), then possibly log the size warning.
The returned value is the warning to log; the deployment continues in
either case. -/
def checkSize (fileSize : String → Option Nat) (pkg : Option String) :
    Except DeployError (Option String) :=
  match pkg with
  | none => Except.error (DeployError.statError none)
  | some p =>
    match fileSize p with
    | none => Except.error (DeployError.statError (some p))
    | some size => Except.ok (sizeWarning size)

/-- The state of the memoized zip loader.  `fs.readFileSync` allocates a
fresh `Buffer` on every call (identified here by an allocation counter);
`this.loadZip = _.memoize(JSZip.loadAsync)` caches decoded archives
keyed by its first argument — the `Buffer` object itself, compared by
object identity by lodash's `MapCache`. -/
structure ZipState where
  nextBufId : Nat
  cacheKeys : List Nat
  readCount : Nat
  decodeCount : Nat
deriving DecidableEq

/-- The zip loader state at the start of a deployment. -/
def zipInit : ZipState := ⟨0, [], 0, 0⟩

/-- `fs.readFileSync(zipFile)`: one unit of disk I/O yielding a fresh
`Buffer` holding the file's bytes (represented by the path, which
determines the archive's contents). -/
def readFileSync (st : ZipState) (path : String) : (Nat × String) × ZipState :=
  ((st.nextBufId, path),
    { st with nextBufId := st.nextBufId + 1, readCount := st.readCount + 1 })

/-- `this.loadZip(buffer)`: the memoized `JSZip.loadAsync`.  A cache hit
on the buffer key skips decoding; a miss decodes and stores the key. -/
def loadZip (st : ZipState) (buf : Nat × String) : ZipState :=
  if buf.1 ∈ st.cacheKeys then st
  else { st with cacheKeys := st.cacheKeys ++ [buf.1], decodeCount := st.decodeCount + 1 }

/-- `getFileContent` (lines 61-65): read the archive from disk, decode
it through the memoized loader, and extract the named entry.  A missing
entry makes `zip.file(relativePath)` return `null` and the `.async`
call reject; the caller observes that as an absent content (`none`). -/
def getFileContent (entries : String → String → Option String) (st : ZipState)
    (zipFile relativePath : String) : Option String × ZipState :=
  let (buf, st1) := readFileSync st zipFile
  let st2 := loadZip st1 buf
  (entries zipFile relativePath, st2)

/-- A per-function asynchronous branch launched by `deployFunction` for
a function with a handler: the strategy deploy call has been issued; the
branch still has to read the dependency manifest and append its record. -/
structure Branch where
  name : String
  description : Obj
  pkg : String
  depFile : String

/-- The observable state of one `deployFunction` invocation: the shared
result collection, the settlement of the wrapping promise (`none` while
pending, first `resolve`/`reject` wins), the zip loader state, the
collaborator calls performed, the log lines emitted, a synchronous throw
escaping the `_.each` iteration (which lands in an unhandled promise
chain), and the launched branches. -/
structure OrchState where
  populated : List Obj
  settled : Option (Except String Unit)
  resolveCalls : Nat
  resolvedAt : Option Nat
  zip : ZipState
  strategyCalls : List String
  getPkgCalls : List String
  checkSizeCalls : List String
  logs : List String
  syncError : Option DeployError
  launched : List Branch

/-- The state before any function is processed. -/
def initState : OrchState :=
  { populated := [], settled := none, resolveCalls := 0, resolvedAt := none,
    zip := zipInit, strategyCalls := [], getPkgCalls := [], checkSizeCalls := [],
    logs := [], syncError := none, launched := [] }

/-- `resolve()`: settles the wrapping promise with success; a no-op on
an already settled promise. -/
def doResolve (s : OrchState) : OrchState :=
  match s.settled with
  | none =>
    { s with settled := some (Except.ok ()), resolvedAt := some s.populated.length,
             resolveCalls := s.resolveCalls + 1 }
  | some _ => { s with resolveCalls := s.resolveCalls + 1 }

/-- `reject(e)`: settles the wrapping promise with failure; a no-op on
an already settled promise. -/
def doReject (e : String) (s : OrchState) : OrchState :=
  match s.settled with
  | none => { s with settled := some (Except.error e) }
  | some _ => s

/-- Append a populated record and run the barrier check
`populatedFunctions.length === _.keys(functions).length` that guards
`resolve()`. -/
def pushAndCheck (total : Nat) (record : Obj) (s : OrchState) : OrchState :=
  let pushed := { s with populated := s.populated ++ [record] }
  if pushed.populated.length = total then doResolve pushed else pushed

/-- The record a branch appends (lines 127-140):
`_.assign({}, description, deployOptions, {id, deps, image, events})`.
When the strategy deploy failed, `deployOptions` is `undefined` and
`_.assign` copies nothing from it. -/
def buildRecord (env : DeployEnv) (b : Branch) (deployOptions : Option Obj)
    (deps : Option String) : Obj :=
  jsAssign (jsAssign (jsAssign [] b.description) (deployOptions.getD []))
    [("id", JVal.str b.name),
     ("deps", match deps with | some c => JVal.str c | none => JVal.undef),
     ("image", jsOrVal (objGet b.description "image") env.providerImage),
     ("events", JVal.arr (normalizeEvents (objGet b.description "events")))]

/-- The log lines emitted on the way to a synchronous throw: `getPkg`
logs its message just before throwing the layout error; stat failures
log nothing. -/
def errLog : DeployError → List String
  | DeployError.invalidPackageLayout msg => [msg]
  | _ => []

/-- One iteration of the `_.each` loop (lines 110-153): resolve the
artifact, check its size, then either launch the asynchronous strategy
branch (handler present — the strategy deploy call is issued here) or
synchronously append `_.assign({}, description, {id: name})` and run the
barrier check.  A throw from `getPkg` or `checkSize` aborts the whole
iteration; the wrapping promise is never settled by it. -/
def processDecl (env : DeployEnv) (total : Nat) (s : OrchState) (nd : String × Obj) :
    OrchState :=
  match s.syncError with
  | some _ => s
  | none =>
    let s1 := { s with getPkgCalls := s.getPkgCalls ++ [nd.1] }
    match getPkg env nd.2 nd.1 with
    | Except.error e =>
      { s1 with syncError := some e, logs := s1.logs ++ errLog e }
    | Except.ok pkgOpt =>
      let s2 := { s1 with checkSizeCalls := s1.checkSizeCalls ++ [nd.1] }
      match checkSize env.fileSize pkgOpt, pkgOpt with
      | Except.error e, _ => { s2 with syncError := some e }
      | Except.ok _, none => { s2 with syncError := some (DeployError.statError none) }
      | Except.ok warn, some p =>
        let s3 := { s2 with logs := s2.logs ++ warn.toList }
        if truthy (objGet nd.2 "handler") then
          { s3 with strategyCalls := s3.strategyCalls ++ [nd.1],
                    launched := s3.launched ++
                      [{ name := nd.1, description := nd.2, pkg := p,
                         depFile := env.depfile
                           (jsOrVal (objGet nd.2 "runtime") env.providerRuntime) }] }
        else
          pushAndCheck total (jsAssign (jsAssign [] nd.2) [("id", JVal.str nd.1)]) s3

/-- The synchronous phase of `deployFunction`: the whole `_.each`
iteration over the function map. -/
def runSync (env : DeployEnv) : OrchState :=
  env.functions.foldl (processDecl env env.functions.length) initState

/-- The completion of one launched branch: the strategy deploy settles
(a failure calls `reject` through `.catch(reject)` and the chain then
continues with `deployOptions = undefined`), the dependency manifest is
read through the memoized loader (a missing entry is swallowed by the
empty catch), and the record is appended followed by the barrier
check. -/
def runBranch (env : DeployEnv) (total : Nat) (s : OrchState) (b : Branch) : OrchState :=
  match env.strategyResult b.name with
  | Except.error e =>
    let s1 := doReject e s
    let r := getFileContent env.archiveEntries s1.zip b.pkg b.depFile
    pushAndCheck total (buildRecord env b none r.1) { s1 with zip := r.2 }
  | Except.ok deployOptions =>
    let r := getFileContent env.archiveEntries s.zip b.pkg b.depFile
    pushAndCheck total (buildRecord env b (some deployOptions) r.1) { s with zip := r.2 }

/-- Processing of the launched branches in a given completion order. -/
def runBranches (env : DeployEnv) (total : Nat) (s : OrchState) (bs : List Branch) :
    OrchState :=
  bs.foldl (runBranch env total) s

/-- A whole `deployFunction` run: the synchronous iteration, then the
launched branches completing in the order given by `bs`. -/
def runDeploy (env : DeployEnv) (bs : List Branch) : OrchState :=
  runBranches env env.functions.length (runSync env) bs

/-- What the caller of `deployFunction` observes: the single downstream
`deploy(...)` submission with the full batch on resolution, a rejection
carrying the first fatal error, or a promise that never settles. -/
inductive Outcome where
  | submitted (batch : List Obj)
  | rejected (e : String)
  | hung

/-- The outcome of a run: `deploy` is invoked exactly when the wrapping
promise resolved. -/
def outcome (env : DeployEnv) (bs : List Branch) : Outcome :=
  let s := runDeploy env bs
  match s.settled with
  | some (Except.ok _) => Outcome.submitted s.populated
  | some (Except.error e) => Outcome.rejected e
  | none => Outcome.hung

/-! ### Object algebra -/

theorem objGet_objSet_self (o : Obj) (k : String) (v : JVal) :
    objGet (objSet o k v) k = v := by
  induction o with
  | nil => simp [objSet, objGet]
  | cons p rest ih =>
    by_cases h : p.1 = k
    · simp [objSet, h, objGet]
    · simp [objSet, h, objGet, ih]

theorem objGet_objSet_ne (o : Obj) (k k' : String) (v : JVal) (h : k ≠ k') :
    objGet (objSet o k' v) k = objGet o k := by
  induction o with
  | nil => simp [objSet, objGet, Ne.symm h]
  | cons p rest ih =>
    by_cases hp : p.1 = k'
    · have hpk : p.1 ≠ k := by rw [hp]; exact Ne.symm h
      simp [objSet, hp, objGet, Ne.symm h, hpk]
    · by_cases hk : p.1 = k
      · simp [objSet, hp, objGet, hk, h]
      · simp [objSet, hp, objGet, hk, ih]

theorem objSet_of_not_mem (o : Obj) (k : String) (v : JVal)
    (h : k ∉ o.map Prod.fst) : objSet o k v = o ++ [(k, v)] := by
  induction o with
  | nil => simp [objSet]
  | cons p rest ih =>
    simp only [List.map_cons, List.mem_cons] at h
    push_neg at h
    simp [objSet, Ne.symm h.1, ih h.2]

theorem jsAssign_cons (t : Obj) (p : String × JVal) (rest : Obj) :
    jsAssign t (p :: rest) = jsAssign (objSet t p.1 p.2) rest := rfl

theorem jsAssign_append (t : Obj) (src : Obj)
    (h1 : ∀ p ∈ src, p.1 ∉ t.map Prod.fst)
    (h2 : (src.map Prod.fst).Nodup) : jsAssign t src = t ++ src := by
  induction src generalizing t with
  | nil => simp [jsAssign]
  | cons p rest ih =>
    rw [jsAssign_cons, objSet_of_not_mem t p.1 p.2 (h1 p (List.mem_cons_self p rest))]
    rw [List.map_cons] at h2
    obtain ⟨hp, hrest⟩ := List.nodup_cons.mp h2
    have h1' : ∀ q ∈ rest, q.1 ∉ (t ++ [(p.1, p.2)]).map Prod.fst := by
      intro q hq
      simp only [List.map_append, List.map_cons, List.map_nil, List.mem_append,
        List.mem_singleton]
      push_neg
      refine ⟨h1 q (List.mem_cons_of_mem p hq), ?_⟩
      intro hqp
      exact hp (hqp ▸ List.mem_map_of_mem Prod.fst hq)
    rw [ih (t ++ [(p.1, p.2)]) h1' hrest, List.append_assoc]
    rfl

theorem jsAssign_nil (d : Obj) (h : (d.map Prod.fst).Nodup) : jsAssign [] d = d := by
  simpa using jsAssign_append [] d (by simp) h

/-! ### C8 — size check boundary -/

/-- C8: `checkSize` warns exactly when the artifact's byte size is
strictly greater than 1,048,576 bytes; 1,048,577 bytes warn, 1,048,576
do not; the warning names the rounded megabyte size; and whenever the
stat succeeds the check returns normally (deployment proceeds) whether
or not the warning fired. -/
theorem checkSize_boundary :
    (∀ size : Nat, (sizeWarning size).isSome ↔ 1048576 < size) ∧
    sizeWarning 1048577 = some (warnMsg 1) ∧
    sizeWarning 1048576 = none ∧
    (∀ size : Nat,
      sizeWarning size = none ∨ sizeWarning size = some (warnMsg (roundedMB size))) ∧
    (∀ size : Nat,
      checkSize (fun _ => some size) (some "artifact.zip") = Except.ok (sizeWarning size)) := by
  refine ⟨?_, ?_, ?_, ?_, ?_⟩
  · intro size
    by_cases h : oneMB < size
    · simp only [sizeWarning, if_pos h, Option.isSome_some, true_iff]
      simpa [oneMB] using h
    · simp only [sizeWarning, if_neg h, Option.isSome_none, false_iff, not_lt]
      simpa [oneMB] using not_lt.mp h
  · rfl
  · rfl
  · intro size
    by_cases h : oneMB < size
    · exact Or.inr (by simp [sizeWarning, h])
    · exact Or.inl (by simp [sizeWarning, h])
  · intro size
    rfl

/-! ### C3 — the defeated memoization of the zip loader -/

/-- Empty archive contents for the memoization scenario. -/
def entriesC3 : String → String → Option String := fun _ _ => none

/-- C3 (code bug): two `getFileContent` calls for the same archive path
re-read the file from disk and re-decode the archive both times.  The
memoize cache is keyed by the `Buffer` returned by `fs.readFileSync`,
which is a fresh object on every call, so the cache never hits and the
`readFileSync` disk read happens before memoization is even consulted. -/
theorem memoization_defeated :
    ((getFileContent entriesC3
        ((getFileContent entriesC3 zipInit "functions.zip" "requirements.txt").2)
        "functions.zip" "package.json").2).decodeCount = 2 ∧
    ((getFileContent entriesC3
        ((getFileContent entriesC3 zipInit "functions.zip" "requirements.txt").2)
        "functions.zip" "package.json").2).readCount = 2 :=
  ⟨rfl, rfl⟩

/-! ### C7 — individually-packaged artifact resolution -/

/-- A minimal environment; concrete scenarios override the fields they
exercise. -/
def baseEnv : DeployEnv :=
  { functions := [], optionsPackage := none, servicePackagePath := none,
    servicePackageArtifact := none, serviceArtifact := none, individually := false,
    isDirectory := fun _ => none, fileSize := fun _ => none,
    providerImage := JVal.undef, providerRuntime := JVal.str "python2.7",
    depfile := fun _ => "requirements.txt", archiveEntries := fun _ _ => none,
    strategyResult := fun _ => Except.error "no strategy" }

/-- C7 (amended): with an explicit package option and individual
packaging, a directory path `P` resolves to the plain string
concatenation `P ++ funcName ++ ".zip"` — which is
`<directory>/<functionName>.zip` only when `P` already ends with the
separator, as in the specification's `{package: "/out/"}` example. -/
theorem getPkg_individually_directory (env : DeployEnv) (d : Obj) (funcName P : String)
    (hp : env.optionsPackage = some P) (hP : P ≠ "")
    (hind : env.individually = true) (hdir : env.isDirectory P = some true) :
    getPkg env d funcName = Except.ok (some (P ++ funcName ++ ".zip")) := by
  unfold getPkg
  rw [hp]
  simp [jsOr, optTruthy, hP, hind, hdir]

/-- C7 witness environment: `{package: "/out/"}`, individual packaging,
`/out/` a directory. -/
def envC7w : DeployEnv :=
  { baseEnv with
    optionsPackage := some "/out/"
    individually := true
    isDirectory := fun p => if p = "/out/" then some true else none }

/-- C7 witness: function `foo` with package directory `/out/` resolves
to `/out/foo.zip`. -/
theorem getPkg_individually_directory_witness :
    getPkg envC7w [] "foo" = Except.ok (some "/out/foo.zip") := by
  have h := getPkg_individually_directory envC7w [] "foo" "/out/" rfl (by decide) rfl rfl
  exact h

/-- C7 counterexample environment: the directory path `/out` has no
trailing separator. -/
def envC7c : DeployEnv :=
  { baseEnv with
    optionsPackage := some "/out"
    individually := true
    isDirectory := fun p => if p = "/out" then some true else none }

/-- C7 counterexample: for the directory path `/out` (no trailing
separator) the code resolves function `foo` to `/outfoo.zip`, not to
`<directory>/<functionName>.zip` = `/out/foo.zip`, refuting the claim's
universally quantified resolution rule. -/
theorem getPkg_no_separator_counterexample :
    getPkg envC7c [] "foo" = Except.ok (some "/outfoo.zip") ∧
    "/outfoo.zip" ≠ "/out" ++ "/" ++ "foo" ++ ".zip" := by
  exact ⟨rfl, by decide⟩

/-! ### C6 — event normalization -/

theorem normalizeEvent_single (k : String) (v : JVal)
    (hv : k = "trigger" ∨ k = "schedule" ∨
      (∃ fs, v = JVal.obj fs ∧ "type" ∉ fs.map Prod.fst ∧ (fs.map Prod.fst).Nodup)) :
    normalizeEvent (JVal.obj [(k, v)]) = claimNormalizeEvent k v := by
  by_cases h1 : k = "trigger"
  · subst h1; rfl
  by_cases h2 : k = "schedule"
  · subst h2; rfl
  rcases hv with h | h | ⟨fs, hfs, hty, hnd⟩
  · exact absurd h h1
  · exact absurd h h2
  subst hfs
  have hfields : ∀ p ∈ fs, p.1 ∉ ([("type", JVal.str k)] : Obj).map Prod.fst := by
    intro p hp
    simp only [List.map_cons, List.map_nil, List.mem_singleton]
    intro hpk
    exact hty (hpk ▸ List.mem_map_of_mem Prod.fst hp)
  simp only [normalizeEvent, claimNormalizeEvent, keysOf, List.map_cons, List.map_nil,
    List.head?_cons, h1, h2, if_false, jvGet, objGet, eq_self_iff_true, if_true, fieldsOf]
  rw [jsAssign_append _ fs hfields hnd]
  rfl

/-- C6: for every event list of single-key events (with, for kinds other
than `trigger` and `schedule`, an object payload that does not collide
with the `type` key), normalization preserves input order and maps each
event to exactly the claimed shape: `trigger` and `schedule` payloads
nested under their own key, all others spread flat under `{type}`. -/
theorem events_normalized (evs : List (String × JVal))
    (hv : ∀ e ∈ evs, e.1 = "trigger" ∨ e.1 = "schedule" ∨
      (∃ fs, e.2 = JVal.obj fs ∧ "type" ∉ fs.map Prod.fst ∧ (fs.map Prod.fst).Nodup)) :
    normalizeEvents (JVal.arr (evs.map (fun e => JVal.obj [e]))) =
      evs.map (fun e => claimNormalizeEvent e.1 e.2) := by
  simp only [normalizeEvents, List.map_map]
  induction evs with
  | nil => rfl
  | cons e rest ih =>
    simp only [List.map_cons, Function.comp]
    rw [normalizeEvent_single e.1 e.2 (by simpa using hv e (List.mem_cons_self e rest))]
    have := ih (fun x hx => hv x (List.mem_cons_of_mem e hx))
    simpa [Function.comp] using this

/-- C6 witness: the specification's example list
`[{trigger: "t1"}, {schedule: "* * * * *"}, {http: {path: "/x"}}]`
normalizes to the claimed output in the same order. -/
theorem events_normalized_witness :
    normalizeEvents (JVal.arr [JVal.obj [("trigger", JVal.str "t1")],
        JVal.obj [("schedule", JVal.str "* * * * *")],
        JVal.obj [("http", JVal.obj [("path", JVal.str "/x")])]]) =
      [JVal.obj [("type", JVal.str "trigger"), ("trigger", JVal.str "t1")],
       JVal.obj [("type", JVal.str "schedule"), ("schedule", JVal.str "* * * * *")],
       JVal.obj [("type", JVal.str "http"), ("path", JVal.str "/x")]] := by
  have h := events_normalized
      [("trigger", JVal.str "t1"), ("schedule", JVal.str "* * * * *"),
       ("http", JVal.obj [("path", JVal.str "/x")])]
      (by
        intro e he
        simp only [List.mem_cons, List.not_mem_nil, or_false] at he
        rcases he with rfl | rfl | rfl
        · exact Or.inl rfl
        · exact Or.inr (Or.inl rfl)
        · exact Or.inr (Or.inr ⟨[("path", JVal.str "/x")], rfl, by decide, by decide⟩))
  exact h

/-! ### Orchestration: basic equations -/

deriving instance DecidableEq for Except

theorem doResolve_eq (s : OrchState) :
    doResolve s =
      if s.settled = none then
        { s with settled := some (Except.ok ()), resolvedAt := some s.populated.length,
                 resolveCalls := s.resolveCalls + 1 }
      else { s with resolveCalls := s.resolveCalls + 1 } := by
  unfold doResolve
  cases h : s.settled <;> simp [h]

theorem doReject_eq (e : String) (s : OrchState) :
    doReject e s =
      if s.settled = none then { s with settled := some (Except.error e) } else s := by
  unfold doReject
  cases h : s.settled <;> simp [h]

theorem doReject_fields (e : String) (s : OrchState) :
    (doReject e s).populated = s.populated ∧ (doReject e s).zip = s.zip ∧
    (doReject e s).resolveCalls = s.resolveCalls ∧
    (doReject e s).resolvedAt = s.resolvedAt ∧
    (doReject e s).launched = s.launched ∧
    (doReject e s).strategyCalls = s.strategyCalls ∧
    (doReject e s).getPkgCalls = s.getPkgCalls ∧
    (doReject e s).checkSizeCalls = s.checkSizeCalls ∧
    (doReject e s).logs = s.logs ∧ (doReject e s).syncError = s.syncError := by
  rw [doReject_eq]
  split <;> simp

theorem pushAndCheck_eq (total : Nat) (record : Obj) (s : OrchState) :
    pushAndCheck total record s =
      if s.populated.length + 1 = total then
        doResolve { s with populated := s.populated ++ [record] }
      else { s with populated := s.populated ++ [record] } := by
  unfold pushAndCheck
  simp

theorem pushAndCheck_fields (total : Nat) (record : Obj) (s : OrchState) :
    (pushAndCheck total record s).populated = s.populated ++ [record] ∧
    (pushAndCheck total record s).strategyCalls = s.strategyCalls ∧
    (pushAndCheck total record s).getPkgCalls = s.getPkgCalls ∧
    (pushAndCheck total record s).checkSizeCalls = s.checkSizeCalls ∧
    (pushAndCheck total record s).syncError = s.syncError ∧
    (pushAndCheck total record s).launched = s.launched ∧
    (pushAndCheck total record s).zip = s.zip ∧
    (pushAndCheck total record s).logs = s.logs := by
  rw [pushAndCheck_eq]
  split
  · rw [doResolve_eq]; split <;> simp
  · simp

theorem pushAndCheck_miss (total : Nat) (record : Obj) (s : OrchState)
    (h : s.populated.length + 1 ≠ total) :
    pushAndCheck total record s = { s with populated := s.populated ++ [record] } := by
  rw [pushAndCheck_eq, if_neg h]

theorem pushAndCheck_hit_none (total : Nat) (record : Obj) (s : OrchState)
    (h : s.populated.length + 1 = total) (hs : s.settled = none) :
    pushAndCheck total record s =
      { s with populated := s.populated ++ [record], settled := some (Except.ok ()),
               resolvedAt := some total, resolveCalls := s.resolveCalls + 1 } := by
  rw [pushAndCheck_eq, if_pos h, doResolve_eq]
  simp [hs, h]

theorem pushAndCheck_settled_some (total : Nat) (record : Obj) (s : OrchState)
    (x : Except String Unit) (h : s.settled = some x) :
    (pushAndCheck total record s).settled = some x := by
  rw [pushAndCheck_eq]
  split
  · rw [doResolve_eq]; simp [h]
  · simpa using h

/-! ### Orchestration: the synchronous phase -/

theorem processDecl_sticky (env : DeployEnv) (total : Nat) (s : OrchState)
    (nd : String × Obj) (e : DeployError) (h : s.syncError = some e) :
    processDecl env total s nd = s := by
  unfold processDecl
  rw [h]

theorem foldl_processDecl_sticky (env : DeployEnv) (total : Nat) :
    ∀ (fns : List (String × Obj)) (s : OrchState) (e : DeployError),
      s.syncError = some e → fns.foldl (processDecl env total) s = s := by
  intro fns
  induction fns with
  | nil => intro s e _; rfl
  | cons nd rest ih =>
    intro s e h
    rw [List.foldl_cons, processDecl_sticky env total s nd e h]
    exact ih s e h

theorem foldl_syncError_none (env : DeployEnv) (total : Nat)
    (fns : List (String × Obj)) (s : OrchState)
    (h : (fns.foldl (processDecl env total) s).syncError = none) :
    s.syncError = none := by
  cases hs : s.syncError with
  | none => rfl
  | some e =>
    rw [foldl_processDecl_sticky env total fns s e hs, hs] at h
    cases h

/-- The exhaustive shapes of one non-sticky `_.each` iteration: a throw
from `getPkg`, a throw from `checkSize`/`statSync`, a launched strategy
branch, or the synchronous population of a handler-less function. -/
theorem processDecl_shape (env : DeployEnv) (total : Nat) (s : OrchState)
    (nd : String × Obj) (hs : s.syncError = none) :
    (∃ e, processDecl env total s nd =
      { s with getPkgCalls := s.getPkgCalls ++ [nd.1], syncError := some e,
               logs := s.logs ++ errLog e }) ∨
    (∃ e, processDecl env total s nd =
      { s with getPkgCalls := s.getPkgCalls ++ [nd.1],
               checkSizeCalls := s.checkSizeCalls ++ [nd.1], syncError := some e }) ∨
    (∃ p warn, truthy (objGet nd.2 "handler") = true ∧
      processDecl env total s nd =
        { s with getPkgCalls := s.getPkgCalls ++ [nd.1],
                 checkSizeCalls := s.checkSizeCalls ++ [nd.1],
                 logs := s.logs ++ Option.toList warn,
                 strategyCalls := s.strategyCalls ++ [nd.1],
                 launched := s.launched ++
                   [{ name := nd.1, description := nd.2, pkg := p,
                      depFile := env.depfile
                        (jsOrVal (objGet nd.2 "runtime") env.providerRuntime) }] }) ∨
    (∃ warn, truthy (objGet nd.2 "handler") = false ∧
      processDecl env total s nd =
        pushAndCheck total (jsAssign (jsAssign [] nd.2) [("id", JVal.str nd.1)])
          { s with getPkgCalls := s.getPkgCalls ++ [nd.1],
                   checkSizeCalls := s.checkSizeCalls ++ [nd.1],
                   logs := s.logs ++ Option.toList warn }) := by
  rcases hg : getPkg env nd.2 nd.1 with e | pkgOpt
  · exact Or.inl ⟨e, by simp [processDecl, hs, hg]⟩
  · rcases hc : checkSize env.fileSize pkgOpt with e | warn
    · exact Or.inr (Or.inl ⟨e, by simp [processDecl, hs, hg, hc]⟩)
    · rcases pkgOpt with _ | p
      · exact absurd hc (by simp [checkSize])
      · by_cases hh : truthy (objGet nd.2 "handler")
        · exact Or.inr (Or.inr (Or.inl ⟨p, warn, hh, by simp [processDecl, hs, hg, hc, hh]⟩))
        · refine Or.inr (Or.inr (Or.inr ⟨warn, by simpa using hh, ?_⟩))
          simp [processDecl, hs, hg, hc, hh]

/-- The invariant of the synchronous phase: no throw has escaped, and
the wrapping promise is still pending with no `resolve()` call while the
collection is below the declared count, or has been resolved by exactly
one `resolve()` at the moment the collection reached the count. -/
def Phase1Inv (total : Nat) (s : OrchState) : Prop :=
  s.syncError = none ∧
  ((s.populated.length < total ∧ s.settled = none ∧ s.resolveCalls = 0 ∧
      s.resolvedAt = none) ∨
   (s.populated.length = total ∧ s.settled = some (Except.ok ()) ∧ s.resolveCalls = 1 ∧
      s.resolvedAt = some total))

theorem runSync_inv (env : DeployEnv) (total : Nat) :
    ∀ (fns : List (String × Obj)) (s : OrchState),
      Phase1Inv total s →
      s.populated.length + s.launched.length + fns.length = total →
      (fns.foldl (processDecl env total) s).syncError = none →
      Phase1Inv total (fns.foldl (processDecl env total) s) ∧
      (fns.foldl (processDecl env total) s).populated.length +
        (fns.foldl (processDecl env total) s).launched.length = total := by
  intro fns
  induction fns with
  | nil =>
    intro s hinv hsum _
    exact ⟨hinv, by simpa using hsum⟩
  | cons nd rest ih =>
    intro s hinv hsum hfin
    rw [List.foldl_cons] at hfin ⊢
    have hs : s.syncError = none := hinv.1
    have hnext : (processDecl env total s nd).syncError = none :=
      foldl_syncError_none env total rest _ hfin
    simp only [List.length_cons] at hsum
    rcases processDecl_shape env total s nd hs with ⟨e, heq⟩ | ⟨e, heq⟩ |
      ⟨p, warn, _, heq⟩ | ⟨warn, _, heq⟩
    · rw [heq] at hnext; simp at hnext
    · rw [heq] at hnext; simp at hnext
    · rw [heq] at hfin ⊢
      refine ih _ ⟨by simpa using hs, by simpa using hinv.2⟩ ?_ hfin
      simp only [List.length_append, List.length_cons, List.length_nil]
      omega
    · rw [heq] at hfin ⊢
      have hleft : s.populated.length < total ∧ s.settled = none ∧ s.resolveCalls = 0 ∧
          s.resolvedAt = none := by
        rcases hinv.2 with h | h
        · exact h
        · exfalso; omega
      by_cases hT : s.populated.length + 1 = total
      · have hrest : rest = [] := List.length_eq_zero.mp (by omega)
        have hlaunch : s.launched.length = 0 := by omega
        subst hrest
        rw [pushAndCheck_hit_none total _ _ (by simpa using hT) (by simpa using hleft.2.1)]
          at hfin ⊢
        refine ⟨⟨by simpa using hs, Or.inr ⟨?_, by simp, ?_, by simp⟩⟩, ?_⟩
        · simp only [List.foldl_nil]
          simp [List.length_append]
          omega
        · simp only [List.foldl_nil]
          simp [hleft.2.2.1]
        · simp only [List.foldl_nil]
          simp [List.length_append]
          omega
      · rw [pushAndCheck_miss total _ _ (by simpa using hT)] at hfin ⊢
        refine ih _ ⟨by simpa using hs, Or.inl ⟨?_, ?_, ?_, ?_⟩⟩ ?_ hfin
        · simp [List.length_append]; omega
        · simpa using hleft.2.1
        · simpa using hleft.2.2.1
        · simpa using hleft.2.2.2
        · simp [List.length_append]; omega

/-! ### Orchestration: the asynchronous branches -/

theorem runBranch_ok (env : DeployEnv) (total : Nat) (s : OrchState) (b : Branch) (o : Obj)
    (h : env.strategyResult b.name = Except.ok o) :
    runBranch env total s b =
      pushAndCheck total
        (buildRecord env b (some o) (env.archiveEntries b.pkg b.depFile))
        { s with zip := (getFileContent env.archiveEntries s.zip b.pkg b.depFile).2 } := by
  unfold runBranch
  rw [h]
  rfl

theorem runBranch_err (env : DeployEnv) (total : Nat) (s : OrchState) (b : Branch) (e : String)
    (h : env.strategyResult b.name = Except.error e) :
    runBranch env total s b =
      pushAndCheck total
        (buildRecord env b none (env.archiveEntries b.pkg b.depFile))
        { doReject e s with
          zip := (getFileContent env.archiveEntries (doReject e s).zip b.pkg b.depFile).2 } := by
  unfold runBranch
  rw [h]
  rfl

theorem runBranches_cons (env : DeployEnv) (total : Nat) (s : OrchState) (b : Branch)
    (rest : List Branch) :
    runBranches env total s (b :: rest) =
      runBranches env total (runBranch env total s b) rest := rfl

theorem runBranches_nil (env : DeployEnv) (total : Nat) (s : OrchState) :
    runBranches env total s [] = s := rfl

theorem runBranch_fields (env : DeployEnv) (total : Nat) (s : OrchState) (b : Branch) :
    ((runBranch env total s b).strategyCalls = s.strategyCalls ∧
     (runBranch env total s b).getPkgCalls = s.getPkgCalls ∧
     (runBranch env total s b).checkSizeCalls = s.checkSizeCalls ∧
     (runBranch env total s b).launched = s.launched ∧
     (runBranch env total s b).syncError = s.syncError) ∧
    ∃ r, (runBranch env total s b).populated = s.populated ++ [r] := by
  rcases h : env.strategyResult b.name with e | o
  · rw [runBranch_err env total s b e h]
    obtain ⟨h1, h2, h3, h4, h5, h6, _, _⟩ :=
      pushAndCheck_fields total (buildRecord env b none (env.archiveEntries b.pkg b.depFile))
        { doReject e s with
          zip := (getFileContent env.archiveEntries (doReject e s).zip b.pkg b.depFile).2 }
    obtain ⟨d1, _, _, _, d5, d6, d7, d8, _, d10⟩ := doReject_fields e s
    refine ⟨⟨?_, ?_, ?_, ?_, ?_⟩,
      buildRecord env b none (env.archiveEntries b.pkg b.depFile), ?_⟩
    · rw [h2]; simpa using d6
    · rw [h3]; simpa using d7
    · rw [h4]; simpa using d8
    · rw [h6]; simpa using d5
    · rw [h5]; simpa using d10
    · rw [h1]; simp [d1]
  · rw [runBranch_ok env total s b o h]
    obtain ⟨h1, h2, h3, h4, h5, h6, _, _⟩ :=
      pushAndCheck_fields total (buildRecord env b (some o) (env.archiveEntries b.pkg b.depFile))
        { s with zip := (getFileContent env.archiveEntries s.zip b.pkg b.depFile).2 }
    refine ⟨⟨by simp [h2], by simp [h3], by simp [h4], by simp [h6], by simp [h5]⟩,
      buildRecord env b (some o) (env.archiveEntries b.pkg b.depFile), by simp [h1]⟩

theorem runBranches_fields (env : DeployEnv) (total : Nat) :
    ∀ (bs : List Branch) (s : OrchState),
      ((runBranches env total s bs).strategyCalls = s.strategyCalls ∧
       (runBranches env total s bs).getPkgCalls = s.getPkgCalls ∧
       (runBranches env total s bs).checkSizeCalls = s.checkSizeCalls ∧
       (runBranches env total s bs).launched = s.launched ∧
       (runBranches env total s bs).syncError = s.syncError) ∧
      ∃ t, (runBranches env total s bs).populated = s.populated ++ t := by
  intro bs
  induction bs with
  | nil => intro s; exact ⟨⟨rfl, rfl, rfl, rfl, rfl⟩, [], (List.append_nil s.populated).symm⟩
  | cons b rest ih =>
    intro s
    obtain ⟨⟨f1, f2, f3, f4, f5⟩, r, hr⟩ := runBranch_fields env total s b
    obtain ⟨⟨g1, g2, g3, g4, g5⟩, t, ht⟩ := ih (runBranch env total s b)
    rw [runBranches_cons]
    refine ⟨⟨g1.trans f1, g2.trans f2, g3.trans f3, g4.trans f4, g5.trans f5⟩, r :: t, ?_⟩
    rw [ht, hr, List.append_assoc]
    rfl

theorem runBranch_frozen (env : DeployEnv) (total : Nat) (s : OrchState) (b : Branch)
    (x : Except String Unit) (h : s.settled = some x) :
    (runBranch env total s b).settled = some x := by
  rcases he : env.strategyResult b.name with e | o
  · rw [runBranch_err env total s b e he]
    apply pushAndCheck_settled_some
    simp [doReject_eq, h]
  · rw [runBranch_ok env total s b o he]
    apply pushAndCheck_settled_some
    simpa using h

theorem runBranches_frozen (env : DeployEnv) (total : Nat) :
    ∀ (bs : List Branch) (s : OrchState) (x : Except String Unit), s.settled = some x →
      (runBranches env total s bs).settled = some x := by
  intro bs
  induction bs with
  | nil => intro s x h; exact h
  | cons b rest ih =>
    intro s x h
    exact ih (runBranch env total s b) x (runBranch_frozen env total s b x h)

theorem runBranch_err_settled (env : DeployEnv) (total : Nat) (s : OrchState) (b : Branch)
    (e : String) (hstrat : env.strategyResult b.name = Except.error e)
    (hs : s.settled = none) :
    (runBranch env total s b).settled = some (Except.error e) := by
  rw [runBranch_err env total s b e hstrat]
  apply pushAndCheck_settled_some
  simp [doReject_eq, hs]

theorem runBranches_all_ok (env : DeployEnv) (total : Nat) :
    ∀ (bs : List Branch) (s : OrchState), bs ≠ [] →
      (∀ b ∈ bs, ∃ o, env.strategyResult b.name = Except.ok o) →
      s.settled = none →
      s.populated.length + bs.length = total →
      (runBranches env total s bs).settled = some (Except.ok ()) ∧
      (runBranches env total s bs).populated.length = total ∧
      (runBranches env total s bs).resolveCalls = s.resolveCalls + 1 ∧
      (runBranches env total s bs).resolvedAt = some total := by
  intro bs
  induction bs with
  | nil => intro s h; exact absurd rfl h
  | cons b rest ih =>
    intro s _ hok hs hsum
    obtain ⟨o, ho⟩ := hok b (List.mem_cons_self b rest)
    rw [runBranches_cons, runBranch_ok env total s b o ho]
    rcases rest with _ | ⟨r2, rest2⟩
    · simp only [List.length_cons, List.length_nil] at hsum
      rw [pushAndCheck_hit_none total _ _ (by simpa using hsum) (by simpa using hs),
        runBranches_nil]
      refine ⟨rfl, ?_, rfl, rfl⟩
      simp [List.length_append]
      omega
    · simp only [List.length_cons] at hsum
      rw [pushAndCheck_miss total _ _ (by simp; omega)]
      have hres := ih
        { s with
          populated := s.populated ++
            [buildRecord env b (some o) (env.archiveEntries b.pkg b.depFile)],
          zip := (getFileContent env.archiveEntries s.zip b.pkg b.depFile).2 }
        (by simp) (fun x hx => hok x (List.mem_cons_of_mem b hx)) (by simpa using hs)
        (by simp [List.length_append]; omega)
      exact hres

theorem runBranches_below (env : DeployEnv) (total : Nat) :
    ∀ (bs : List Branch) (s : OrchState),
      (∀ b ∈ bs, ∃ o, env.strategyResult b.name = Except.ok o) →
      s.settled = none →
      s.populated.length + bs.length < total →
      (runBranches env total s bs).settled = none ∧
      (runBranches env total s bs).populated.length = s.populated.length + bs.length := by
  intro bs
  induction bs with
  | nil => intro s _ hs _; exact ⟨hs, by rw [runBranches_nil]; simp⟩
  | cons b rest ih =>
    intro s hok hs hsum
    obtain ⟨o, ho⟩ := hok b (List.mem_cons_self b rest)
    simp only [List.length_cons] at hsum
    rw [runBranches_cons, runBranch_ok env total s b o ho]
    rw [pushAndCheck_miss total _ _ (by simp; omega)]
    have hres := ih
      { s with
        populated := s.populated ++
          [buildRecord env b (some o) (env.archiveEntries b.pkg b.depFile)],
        zip := (getFileContent env.archiveEntries s.zip b.pkg b.depFile).2 }
      (fun x hx => hok x (List.mem_cons_of_mem b hx)) (by simpa using hs)
      (by simp [List.length_append]; omega)
    refine ⟨hres.1, ?_⟩
    rw [hres.2]
    simp [List.length_append]
    omega

theorem pushAndCheck_populated (total : Nat) (record : Obj) (s : OrchState) :
    (pushAndCheck total record s).populated = s.populated ++ [record] :=
  (pushAndCheck_fields total record s).1

theorem pushAndCheck_getPkgCalls (total : Nat) (record : Obj) (s : OrchState) :
    (pushAndCheck total record s).getPkgCalls = s.getPkgCalls :=
  (pushAndCheck_fields total record s).2.2.1

theorem pushAndCheck_checkSizeCalls (total : Nat) (record : Obj) (s : OrchState) :
    (pushAndCheck total record s).checkSizeCalls = s.checkSizeCalls :=
  (pushAndCheck_fields total record s).2.2.2.1

theorem pushAndCheck_strategyCalls (total : Nat) (record : Obj) (s : OrchState) :
    (pushAndCheck total record s).strategyCalls = s.strategyCalls :=
  (pushAndCheck_fields total record s).2.1

/-- The collaborator-call and collection effects of one iteration:
the collection and the call lists only grow, and a strategy call is
recorded exactly for the iteration's own function when its handler is
truthy. -/
theorem processDecl_mono (env : DeployEnv) (total : Nat) (s : OrchState) (nd : String × Obj) :
    (∃ t, (processDecl env total s nd).populated = s.populated ++ t) ∧
    (∃ t, (processDecl env total s nd).getPkgCalls = s.getPkgCalls ++ t) ∧
    (∃ t, (processDecl env total s nd).checkSizeCalls = s.checkSizeCalls ++ t) ∧
    ((processDecl env total s nd).strategyCalls = s.strategyCalls ∨
      ((processDecl env total s nd).strategyCalls = s.strategyCalls ++ [nd.1] ∧
        truthy (objGet nd.2 "handler") = true)) := by
  cases hs : s.syncError with
  | some e =>
    rw [processDecl_sticky env total s nd e hs]
    exact ⟨⟨[], by simp⟩, ⟨[], by simp⟩, ⟨[], by simp⟩, Or.inl rfl⟩
  | none =>
    rcases processDecl_shape env total s nd hs with ⟨e, heq⟩ | ⟨e, heq⟩ |
      ⟨p, warn, hh, heq⟩ | ⟨warn, hh, heq⟩ <;> rw [heq]
    · exact ⟨⟨[], by simp⟩, ⟨[nd.1], by simp⟩, ⟨[], by simp⟩, Or.inl (by simp)⟩
    · exact ⟨⟨[], by simp⟩, ⟨[nd.1], by simp⟩, ⟨[nd.1], by simp⟩, Or.inl (by simp)⟩
    · exact ⟨⟨[], by simp⟩, ⟨[nd.1], by simp⟩, ⟨[nd.1], by simp⟩, Or.inr ⟨by simp, hh⟩⟩
    · refine ⟨⟨[jsAssign (jsAssign [] nd.2) [("id", JVal.str nd.1)]], ?_⟩,
        ⟨[nd.1], ?_⟩, ⟨[nd.1], ?_⟩, Or.inl ?_⟩
      · rw [pushAndCheck_populated]
      · rw [pushAndCheck_getPkgCalls]
      · rw [pushAndCheck_checkSizeCalls]
      · rw [pushAndCheck_strategyCalls]

theorem foldl_mono (env : DeployEnv) (total : Nat) :
    ∀ (fns : List (String × Obj)) (s : OrchState),
      (∃ t, (fns.foldl (processDecl env total) s).populated = s.populated ++ t) ∧
      (∃ t, (fns.foldl (processDecl env total) s).getPkgCalls = s.getPkgCalls ++ t) ∧
      (∃ t, (fns.foldl (processDecl env total) s).checkSizeCalls =
        s.checkSizeCalls ++ t) := by
  intro fns
  induction fns with
  | nil => intro s; exact ⟨⟨[], by simp⟩, ⟨[], by simp⟩, ⟨[], by simp⟩⟩
  | cons nd rest ih =>
    intro s
    obtain ⟨⟨t1, h1⟩, ⟨t2, h2⟩, ⟨t3, h3⟩, _⟩ := processDecl_mono env total s nd
    obtain ⟨⟨u1, g1⟩, ⟨u2, g2⟩, ⟨u3, g3⟩⟩ := ih (processDecl env total s nd)
    rw [List.foldl_cons]
    exact ⟨⟨t1 ++ u1, by rw [g1, h1, List.append_assoc]⟩,
      ⟨t2 ++ u2, by rw [g2, h2, List.append_assoc]⟩,
      ⟨t3 ++ u3, by rw [g3, h3, List.append_assoc]⟩⟩

theorem foldl_strategyCalls (env : DeployEnv) (total : Nat) :
    ∀ (fns : List (String × Obj)) (s : OrchState) (n : String),
      n ∈ (fns.foldl (processDecl env total) s).strategyCalls →
      n ∈ s.strategyCalls ∨
        ∃ d, (n, d) ∈ fns ∧ truthy (objGet d "handler") = true := by
  intro fns
  induction fns with
  | nil => intro s n h; exact Or.inl h
  | cons nd rest ih =>
    intro s n h
    rw [List.foldl_cons] at h
    rcases ih _ n h with hmem | ⟨d, hd, ht⟩
    · rcases (processDecl_mono env total s nd).2.2.2 with he | ⟨he, hh⟩
      · rw [he] at hmem; exact Or.inl hmem
      · rw [he] at hmem
        rcases List.mem_append.mp hmem with h1 | h1
        · exact Or.inl h1
        · have hn : n = nd.1 := List.mem_singleton.mp h1
          subst hn
          exact Or.inr ⟨nd.2, List.mem_cons_self nd rest, hh⟩
    · exact Or.inr ⟨d, List.mem_cons_of_mem nd hd, ht⟩

theorem foldl_calls_mem (env : DeployEnv) (total : Nat) :
    ∀ (fns : List (String × Obj)) (s : OrchState) (n : String) (d : Obj),
      (n, d) ∈ fns →
      (fns.foldl (processDecl env total) s).syncError = none →
      n ∈ (fns.foldl (processDecl env total) s).getPkgCalls ∧
      n ∈ (fns.foldl (processDecl env total) s).checkSizeCalls := by
  intro fns
  induction fns with
  | nil => intro s n d h; cases h
  | cons nd rest ih =>
    intro s n d hmem hfin
    have hs : s.syncError = none := foldl_syncError_none env total (nd :: rest) s hfin
    rw [List.foldl_cons] at hfin ⊢
    rcases List.mem_cons.mp hmem with heq | hmem'
    · subst heq
      have hnext : (processDecl env total s ((n, d) : String × Obj)).syncError = none :=
        foldl_syncError_none env total rest _ hfin
      obtain ⟨_, ⟨tg, hg⟩, ⟨tc, hc⟩⟩ := foldl_mono env total rest (processDecl env total s (n, d))
      constructor
      · rw [hg]
        apply List.mem_append_left
        rcases processDecl_shape env total s (n, d) hs with ⟨e, heq2⟩ | ⟨e, heq2⟩ |
          ⟨p, warn, _, heq2⟩ | ⟨warn, _, heq2⟩ <;> rw [heq2]
        · simp
        · simp
        · simp
        · rw [pushAndCheck_getPkgCalls]; simp
      · rw [hc]
        apply List.mem_append_left
        rcases processDecl_shape env total s (n, d) hs with ⟨e, heq2⟩ | ⟨e, heq2⟩ |
          ⟨p, warn, _, heq2⟩ | ⟨warn, _, heq2⟩
        · rw [heq2] at hnext; simp at hnext
        · rw [heq2] at hnext; simp at hnext
        · rw [heq2]; simp
        · rw [heq2, pushAndCheck_checkSizeCalls]; simp
    · exact ih _ n d hmem' hfin

theorem foldl_record_mem (env : DeployEnv) (total : Nat) :
    ∀ (fns : List (String × Obj)) (s : OrchState) (name : String) (d : Obj),
      (name, d) ∈ fns → truthy (objGet d "handler") = false →
      (fns.foldl (processDecl env total) s).syncError = none →
      jsAssign (jsAssign [] d) [("id", JVal.str name)] ∈
        (fns.foldl (processDecl env total) s).populated := by
  intro fns
  induction fns with
  | nil => intro s name d h; cases h
  | cons nd rest ih =>
    intro s name d hmem hh hfin
    have hs : s.syncError = none := foldl_syncError_none env total (nd :: rest) s hfin
    rw [List.foldl_cons] at hfin ⊢
    rcases List.mem_cons.mp hmem with heq | hmem'
    · subst heq
      have hnext : (processDecl env total s ((name, d) : String × Obj)).syncError = none :=
        foldl_syncError_none env total rest _ hfin
      rcases processDecl_shape env total s (name, d) hs with ⟨e, heq2⟩ | ⟨e, heq2⟩ |
        ⟨p, warn, hh2, heq2⟩ | ⟨warn, _, heq2⟩
      · rw [heq2] at hnext; simp at hnext
      · rw [heq2] at hnext; simp at hnext
      · exact absurd hh2 (by simp [hh])
      · rw [heq2]
        obtain ⟨⟨t, hmono⟩, _, _⟩ := foldl_mono env total rest _
        rw [hmono]
        apply List.mem_append_left
        rw [pushAndCheck_populated]
        simp
    · exact ih _ name d hmem' hh hfin

theorem nodup_keys_unique {β : Type} :
    ∀ (l : List (String × β)) (a : String) (b₁ b₂ : β),
      (l.map Prod.fst).Nodup → (a, b₁) ∈ l → (a, b₂) ∈ l → b₁ = b₂ := by
  intro l
  induction l with
  | nil => intro a b₁ b₂ _ h; cases h
  | cons p rest ih =>
    intro a b₁ b₂ hnd h1 h2
    rw [List.map_cons] at hnd
    obtain ⟨hp, hrest⟩ := List.nodup_cons.mp hnd
    rcases List.mem_cons.mp h1 with he1 | hm1 <;> rcases List.mem_cons.mp h2 with he2 | hm2
    · rw [← he1] at he2; exact (Prod.mk.injEq _ _ _ _).mp he2.symm |>.2
    · exfalso
      apply hp
      have : p.1 = a := by rw [← he1]
      rw [this]
      exact List.mem_map_of_mem Prod.fst hm2
    · exfalso
      apply hp
      have : p.1 = a := by rw [← he2]
      rw [this]
      exact List.mem_map_of_mem Prod.fst hm1
    · exact ih a b₁ b₂ hrest hm1 hm2

theorem runDeploy_def (env : DeployEnv) (bs : List Branch) :
    runDeploy env bs = runBranches env env.functions.length (runSync env) bs := rfl

theorem outcome_eq (env : DeployEnv) (bs : List Branch) :
    outcome env bs =
      match (runDeploy env bs).settled with
      | some (Except.ok _) => Outcome.submitted (runDeploy env bs).populated
      | some (Except.error e) => Outcome.rejected e
      | none => Outcome.hung := rfl

/-! ### C2 — the completion barrier and the single submission -/

/-- C2 (amended): for every function map with at least one declared
function, when artifact resolution and the size check succeed for every
function and every strategy deploy succeeds, the downstream `deploy`
submission fires exactly once — `resolve()` is called exactly once, at
the moment the collection length reached the declared count — and only
after exactly N records were appended, for every completion order of the
launched branches. -/
theorem submission_barrier (env : DeployEnv) (bs : List Branch)
    (hne : env.functions ≠ [])
    (hsync : (runSync env).syncError = none)
    (hok : ∀ b ∈ (runSync env).launched, ∃ o, env.strategyResult b.name = Except.ok o)
    (hperm : bs.Perm (runSync env).launched) :
    (runDeploy env bs).settled = some (Except.ok ()) ∧
    (runDeploy env bs).populated.length = env.functions.length ∧
    (runDeploy env bs).resolveCalls = 1 ∧
    (runDeploy env bs).resolvedAt = some env.functions.length ∧
    outcome env bs = Outcome.submitted (runDeploy env bs).populated := by
  have htot : 0 < env.functions.length := List.length_pos.mpr hne
  have hinv := runSync_inv env env.functions.length env.functions initState
    ⟨rfl, Or.inl ⟨htot, rfl, rfl, rfl⟩⟩ (by simp [initState]) hsync
  rw [show env.functions.foldl (processDecl env env.functions.length) initState
    = runSync env from rfl] at hinv
  rcases hlc : (runSync env).launched with _ | ⟨b0, rest0⟩
  · have hbs : bs = [] := List.Perm.eq_nil (hlc ▸ hperm)
    subst hbs
    have hlen : (runSync env).populated.length = env.functions.length := by
      have hsum := hinv.2
      rw [hlc] at hsum
      simpa using hsum
    rcases hinv.1.2 with h | h
    · exact absurd hlen (by omega)
    · have h1 : (runDeploy env []).settled = some (Except.ok ()) := by
        rw [runDeploy_def, runBranches_nil]; exact h.2.1
      refine ⟨h1, ?_, ?_, ?_, ?_⟩
      · rw [runDeploy_def, runBranches_nil]; exact hlen
      · rw [runDeploy_def, runBranches_nil]; exact h.2.2.1
      · rw [runDeploy_def, runBranches_nil]; exact h.2.2.2
      · rw [outcome_eq, h1]
  · have hsum := hinv.2
    rw [hlc] at hsum
    simp only [List.length_cons] at hsum
    have hlt : (runSync env).populated.length < env.functions.length := by omega
    have hleft : (runSync env).settled = none ∧ (runSync env).resolveCalls = 0 := by
      rcases hinv.1.2 with h | h
      · exact ⟨h.2.1, h.2.2.1⟩
      · exfalso; omega
    have hbsne : bs ≠ [] := by
      intro hbs
      subst hbs
      have hl := hperm.length_eq
      rw [hlc] at hl
      simp at hl
    have hall := runBranches_all_ok env env.functions.length bs (runSync env) hbsne
      (fun b hb => hok b (hperm.mem_iff.mp hb)) hleft.1
      (by rw [hperm.length_eq, hlc]; simp only [List.length_cons]; omega)
    have h1 : (runDeploy env bs).settled = some (Except.ok ()) := by
      rw [runDeploy_def]; exact hall.1
    refine ⟨h1, ?_, ?_, ?_, ?_⟩
    · rw [runDeploy_def]; exact hall.2.1
    · rw [runDeploy_def, hall.2.2.1, hleft.2]
    · rw [runDeploy_def]; exact hall.2.2.2
    · rw [outcome_eq, h1]

/-- C2 counterexample environment: an empty function map. -/
def envC2c : DeployEnv := baseEnv

/-- C2 counterexample: with zero declared functions the submission never
fires — the deployment promise hangs and `resolve` is never called — so
the claim's universally quantified "fires exactly once per deployment
invocation" fails at N = 0. -/
theorem submission_zero_counterexample :
    outcome envC2c [] = Outcome.hung ∧ (runDeploy envC2c []).resolveCalls = 0 :=
  ⟨rfl, rfl⟩

/-- C2 witness: function declarations. -/
def descC2f : Obj := [("handler", JVal.str "handler.hello")]

/-- C2 witness: a handler-less declaration. -/
def descC2g : Obj := [("memorySize", JVal.str "128")]

/-- C2 witness environment: two functions, one asynchronous branch. -/
def envC2w : DeployEnv :=
  { baseEnv with
    functions := [("f", descC2f), ("g", descC2g)]
    servicePackagePath := some "art.zip"
    fileSize := fun p => if p = "art.zip" then some 1000 else none
    archiveEntries := fun z r =>
      if z = "art.zip" ∧ r = "requirements.txt" then some "requests" else none
    strategyResult := fun _ => Except.ok [("content", JVal.str "zipped")] }

/-- C2 witness: the single launched branch. -/
def brC2w : Branch :=
  { name := "f", description := descC2f, pkg := "art.zip",
    depFile := "requirements.txt" }

/-- C2 witness: the launched-branch schedule. -/
def bsC2w : List Branch := [brC2w]

/-- C2 witness: with two declared functions the run resolves exactly
once with both records collected, and submits the batch. -/
theorem submission_barrier_witness :
    (runDeploy envC2w bsC2w).resolveCalls = 1 ∧
    (runDeploy envC2w bsC2w).populated.length = 2 ∧
    outcome envC2w bsC2w = Outcome.submitted (runDeploy envC2w bsC2w).populated := by
  have hl : (runSync envC2w).launched = bsC2w := rfl
  have h := submission_barrier envC2w bsC2w (List.length_pos.mp (by decide)) rfl
    (by
      intro b hb
      rw [hl] at hb
      have hb2 : b = brC2w := List.mem_singleton.mp hb
      subst hb2
      exact ⟨[("content", JVal.str "zipped")], rfl⟩)
    (by rw [hl])
  exact ⟨h.2.2.1, h.2.1, h.2.2.2.2⟩

/-! ### C4 — strategy failure aborts the batch -/

/-- C4: if the strategy deploy fails for any single function, the
wrapping promise is rejected with the first such error in completion
order, so the downstream `deploy` submission is never invoked; later
errors are suppressed, even when every other branch (the `pre` branches
here) already completed successfully. -/
theorem strategy_error_aborts (env : DeployEnv) (pre post : List Branch) (b : Branch)
    (e : String)
    (hsync : (runSync env).syncError = none)
    (hperm : (pre ++ b :: post).Perm (runSync env).launched)
    (hpre : ∀ x ∈ pre, ∃ o, env.strategyResult x.name = Except.ok o)
    (hb : env.strategyResult b.name = Except.error e) :
    (runDeploy env (pre ++ b :: post)).settled = some (Except.error e) ∧
    outcome env (pre ++ b :: post) = Outcome.rejected e := by
  have hfne : env.functions ≠ [] := by
    intro h
    have hl : (runSync env).launched = [] := by
      unfold runSync
      rw [h]
      rfl
    rw [hl] at hperm
    have h2 := List.append_eq_nil.mp (List.Perm.eq_nil hperm)
    cases h2.2
  have htot : 0 < env.functions.length := List.length_pos.mpr hfne
  have hinv := runSync_inv env env.functions.length env.functions initState
    ⟨rfl, Or.inl ⟨htot, rfl, rfl, rfl⟩⟩ (by simp [initState]) hsync
  rw [show env.functions.foldl (processDecl env env.functions.length) initState
    = runSync env from rfl] at hinv
  have hsum := hinv.2
  have hlen := hperm.length_eq
  simp only [List.length_append, List.length_cons] at hlen
  have hleft : (runSync env).settled = none := by
    rcases hinv.1.2 with h | h
    · exact h.2.1
    · exfalso; omega
  have hrd : runDeploy env (pre ++ b :: post) =
      runBranches env env.functions.length
        (runBranch env env.functions.length
          (runBranches env env.functions.length (runSync env) pre) b) post := by
    rw [runDeploy_def]
    unfold runBranches
    rw [List.foldl_append, List.foldl_cons]
  have hbelow := runBranches_below env env.functions.length pre (runSync env) hpre hleft
    (by omega)
  have herr := runBranch_err_settled env env.functions.length _ b e hb hbelow.1
  have hfroz := runBranches_frozen env env.functions.length post _ _ herr
  have h1 : (runDeploy env (pre ++ b :: post)).settled = some (Except.error e) := by
    rw [hrd]; exact hfroz
  refine ⟨h1, ?_⟩
  rw [outcome_eq, h1]

/-- C4 witness: a declaration whose strategy deploy fails. -/
def descC4 : Obj := [("handler", JVal.str "handler.boom")]

/-- C4 witness environment. -/
def envC4 : DeployEnv :=
  { baseEnv with
    functions := [("f", descC4)]
    servicePackagePath := some "art.zip"
    fileSize := fun p => if p = "art.zip" then some 1000 else none
    strategyResult := fun _ => Except.error "boom" }

/-- C4 witness: the single launched branch. -/
def brC4 : Branch :=
  { name := "f", description := descC4, pkg := "art.zip", depFile := "requirements.txt" }

/-- C4 witness: the strategy failure `boom` rejects the batch and
nothing is submitted. -/
theorem strategy_error_aborts_witness :
    outcome envC4 ([] ++ brC4 :: []) = Outcome.rejected "boom" := by
  have hl : (runSync envC4).launched = [] ++ brC4 :: [] := rfl
  have h := strategy_error_aborts envC4 [] [] brC4 "boom" rfl
    (by rw [hl])
    (fun x hx => absurd hx (List.not_mem_nil x))
    rfl
  exact h.2

/-! ### C10 — the empty function map hangs -/

/-- C10: with zero declared functions no branch is launched, the barrier
check never runs (it only runs after an append), and the promise
returned by `deployFunction` never settles: no submission, no
resolution, no rejection ever occurs. -/
theorem empty_map_never_settles (env : DeployEnv) (h : env.functions = []) :
    (runSync env).launched = [] ∧ (runSync env).settled = none ∧
    (runSync env).resolveCalls = 0 ∧ (runSync env).populated = [] ∧
    outcome env [] = Outcome.hung := by
  have hrs : runSync env = initState := by
    unfold runSync
    rw [h]
    rfl
  have h1 : (runDeploy env []).settled = none := by
    rw [runDeploy_def, runBranches_nil, hrs]
    rfl
  refine ⟨by rw [hrs]; rfl, by rw [hrs]; rfl, by rw [hrs]; rfl, by rw [hrs]; rfl, ?_⟩
  rw [outcome_eq, h1]

/-- C10 witness environment: the concrete empty function map. -/
def envC10 : DeployEnv := baseEnv

/-- C10 witness: the empty map's promise pends forever. -/
theorem empty_map_never_settles_witness :
    (runSync envC10).settled = none ∧ outcome envC10 [] = Outcome.hung := by
  have h := empty_map_never_settles envC10 rfl
  exact ⟨h.2.1, h.2.2.2.2⟩

/-! ### C1 — handler-less functions -/

/-- C1 (amended): a declared function without a truthy `handler` is
populated synchronously as exactly the original declaration plus
`{id: name}`, and no strategy deploy call is ever made for it; however —
contrary to the original claim — `getPkg` and `checkSize` are still
invoked for it, because the `_.each` iteration resolves and stats every
function's artifact before inspecting the handler. -/
theorem handlerless_population (env : DeployEnv) (bs : List Branch) (name : String)
    (d : Obj)
    (hmem : (name, d) ∈ env.functions)
    (hh : truthy (objGet d "handler") = false)
    (hnames : (env.functions.map Prod.fst).Nodup)
    (hd : (d.map Prod.fst).Nodup)
    (hid : "id" ∉ d.map Prod.fst)
    (hsync : (runSync env).syncError = none) :
    (d ++ [("id", JVal.str name)]) ∈ (runDeploy env bs).populated ∧
    name ∉ (runDeploy env bs).strategyCalls ∧
    name ∈ (runDeploy env bs).getPkgCalls ∧
    name ∈ (runDeploy env bs).checkSizeCalls := by
  obtain ⟨⟨fS, fG, fC, _, _⟩, t, fP⟩ :=
    runBranches_fields env env.functions.length bs (runSync env)
  have hrec : jsAssign (jsAssign [] d) [("id", JVal.str name)] =
      d ++ [("id", JVal.str name)] := by
    rw [jsAssign_nil d hd]
    exact jsAssign_append d [("id", JVal.str name)]
      (by intro p hp; rw [List.mem_singleton.mp hp]; exact hid) (by simp)
  refine ⟨?_, ?_, ?_, ?_⟩
  · rw [runDeploy_def, fP]
    apply List.mem_append_left
    rw [← hrec]
    exact foldl_record_mem env env.functions.length env.functions initState name d
      hmem hh hsync
  · rw [runDeploy_def, fS]
    intro hmemS
    rcases foldl_strategyCalls env env.functions.length env.functions initState name hmemS
      with h0 | ⟨d2, hd2, ht2⟩
    · exact List.not_mem_nil name h0
    · have hdd : d2 = d := nodup_keys_unique env.functions name d2 d hnames hd2 hmem
      rw [hdd] at ht2
      exact Bool.noConfusion (hh ▸ ht2)
  · rw [runDeploy_def, fG]
    exact (foldl_calls_mem env env.functions.length env.functions initState name d
      hmem hsync).1
  · rw [runDeploy_def, fC]
    exact (foldl_calls_mem env env.functions.length env.functions initState name d
      hmem hsync).2

/-- C1: a handler-less declaration. -/
def descC1 : Obj := [("memorySize", JVal.str "128")]

/-- C1 environment: one handler-less function with a resolvable
artifact. -/
def envC1 : DeployEnv :=
  { baseEnv with
    functions := [("f", descC1)]
    servicePackagePath := some "art.zip"
    fileSize := fun p => if p = "art.zip" then some 1000 else none }

/-- C1 witness: the handler-less function is populated as the
declaration plus `{id: "f"}` and its name never reaches the strategy. -/
theorem handlerless_population_witness :
    (descC1 ++ [("id", JVal.str "f")]) ∈ (runDeploy envC1 []).populated ∧
    "f" ∉ (runDeploy envC1 []).strategyCalls := by
  have h := handlerless_population envC1 [] "f" descC1
    (List.mem_singleton.mpr rfl) rfl (by decide) (by decide) (by decide) rfl
  exact ⟨h.1, h.2.1⟩

/-- C1 counterexample: the claim says no `getPkg` or `checkSize` call is
ever performed for a handler-less function, but the code invokes both
for every declared function before it looks at the handler. -/
theorem handlerless_calls_counterexample :
    (runSync envC1).getPkgCalls = ["f"] ∧ (runSync envC1).checkSizeCalls = ["f"] :=
  ⟨rfl, rfl⟩

/-! ### C5 — invalid package layout -/

/-- C5: the failing declaration. -/
def descC5 : Obj := [("handler", JVal.str "handler.f")]

/-- C5 environment: explicit package option, individual packaging, and a
path that is not a directory. -/
def envC5 : DeployEnv :=
  { baseEnv with
    functions := [("f", descC5)]
    optionsPackage := some "/pkg"
    individually := true
    isDirectory := fun p => if p = "/pkg" then some false else none }

/-- C5 (code bug): with an explicit package option, individual packaging
and a non-directory path, `getPkg` logs the descriptive message and
throws `InvalidPackageLayout`; no strategy deploy is attempted and the
submitter can never be invoked — but the throw escapes inside the
`kubelessConfig.init().then(...)` chain, so the promise returned by
`deployFunction` never settles: the failure becomes an unhandled
rejection instead of a rejection surfaced to the caller. -/
theorem invalid_layout_unhandled :
    (runSync envC5).syncError = some (DeployError.invalidPackageLayout pkgDirMsg) ∧
    (runSync envC5).logs = [pkgDirMsg] ∧
    (runSync envC5).strategyCalls = [] ∧
    (runSync envC5).launched = [] ∧
    (runSync envC5).settled = none ∧
    outcome envC5 [] = Outcome.hung :=
  ⟨rfl, rfl, rfl, rfl, rfl, rfl⟩

/-! ### C9 — missing dependency manifest is recovered locally -/

/-- C9: for a branch whose strategy deploy succeeded but whose archive
has no entry at the runtime's dependency-file path, the read failure is
recovered inside the branch: the function's record is still appended,
its `deps` field records absence (`undefined`), and the branch never
settles the promise with an error. -/
theorem missing_manifest_recovered (env : DeployEnv) (total : Nat) (s : OrchState)
    (b : Branch) (o : Obj)
    (hok : env.strategyResult b.name = Except.ok o)
    (hmiss : env.archiveEntries b.pkg b.depFile = none) :
    (runBranch env total s b).populated =
      s.populated ++ [buildRecord env b (some o) none] ∧
    objGet (buildRecord env b (some o) none) "deps" = JVal.undef ∧
    ((runBranch env total s b).settled = s.settled ∨
      (runBranch env total s b).settled = some (Except.ok ())) := by
  refine ⟨?_, ?_, ?_⟩
  · rw [runBranch_ok env total s b o hok, pushAndCheck_populated, hmiss]
  · have h4 : buildRecord env b (some o) none =
        objSet (objSet (objSet (objSet (jsAssign (jsAssign [] b.description) o) "id"
          (JVal.str b.name)) "deps" JVal.undef) "image"
          (jsOrVal (objGet b.description "image") env.providerImage)) "events"
          (JVal.arr (normalizeEvents (objGet b.description "events"))) := rfl
    rw [h4, objGet_objSet_ne _ _ _ _ (by decide), objGet_objSet_ne _ _ _ _ (by decide),
      objGet_objSet_self]
  · rw [runBranch_ok env total s b o hok, pushAndCheck_eq]
    split
    · rw [doResolve_eq]
      split
      · exact Or.inr (by simp)
      · exact Or.inl (by simp)
    · exact Or.inl (by simp)

/-- C9 witness: the declaration. -/
def descC9 : Obj := [("handler", JVal.str "handler.hello")]

/-- C9 witness environment: the archive holds no dependency manifest. -/
def envC9 : DeployEnv :=
  { baseEnv with
    functions := [("hello", descC9)]
    servicePackagePath := some "art.zip"
    fileSize := fun p => if p = "art.zip" then some 1000 else none
    strategyResult := fun _ => Except.ok [("content", JVal.str "zipped")] }

/-- C9 witness: the launched branch. -/
def brC9 : Branch :=
  { name := "hello", description := descC9, pkg := "art.zip",
    depFile := "requirements.txt" }

/-- C9 witness: the record lands in the collection with `deps`
undefined. -/
theorem missing_manifest_recovered_witness :
    (runBranch envC9 1 initState brC9).populated =
      [buildRecord envC9 brC9 (some [("content", JVal.str "zipped")]) none] ∧
    objGet (buildRecord envC9 brC9 (some [("content", JVal.str "zipped")]) none) "deps" =
      JVal.undef := by
  have h := missing_manifest_recovered envC9 1 initState brC9
    [("content", JVal.str "zipped")] rfl rfl
  refine ⟨?_, h.2.1⟩
  rw [h.1]
  rfl

end Kubeless
